import Mathlib

/-!
Before-Closure Analysis (`src/bcanalysis.cpp`)

A shallow embedding of the numerical part of the `BCAnalysis` class: the two
time transforms (`SRTFunction`, `GFunction`), the derivative recomputation
(`calculateDerivatives`) and the data-cursor lookup (`dataCursorPlot`).

Conventions of the embedding.

* A `QVector<double>` is a `List α`; the scalar type `α` and the C library
  functions applied to it (`sqrt`, `pow`, the constant `M_PI`) are parameters
  of the definitions, so every definition is executable.  Statements about
  real numbers instantiate them with `ℝ`, `Real.sqrt`, `Real.pi` and the real
  power, which agree with the C functions on non-negative arguments.
* A member function is a function from the object state to `Option` of the
  new state; `none` stands for an out-of-range `operator[]`.
* `for (unsigned long i = 0; i < n; ++i) body` is `forLoop body n 0`.
-/

namespace DFIT

/-- The `figtitles` member: plot title and axis labels. -/
structure FigTitles where
  plot : String
  x : String
  y1 : String
  y2 : String
  y3 : String

/-- The part of `DFITAnalysis` read through the `dfitanalysis` pointer. -/
structure DFITAnalysis (α : Type) where
  tD : List α
  p_shut : List α

/-- The data members of `BCAnalysis` that the analysis reads or writes. -/
structure BCAnalysis (α : Type) where
  dwindow : Int
  dfitanalysis : DFITAnalysis α
  x : List α
  dx : List α
  xdx : List α
  figtitles : FigTitles

/-- The loop `for (i = start; i < start + n; ++i) acc = body i acc`, stopping
with `none` as soon as one iteration fails. -/
def forLoop {σ : Type} (body : Nat → σ → Option σ) : Nat → Nat → σ → Option σ
  | 0, _, acc => some acc
  | n + 1, i, acc => (body i acc).bind (forLoop body n (i + 1))

/-- The titles assigned at the top of `SRTFunction`. -/
def srtTitles : FigTitles :=
  { plot := "Square Root Time"
    x := "tD^1/2"
    y1 := "Pressure [psi]"
    y2 := "tD^1/2.dp/dtD^1/2 [psi]"
    y3 := "dp/dtD^1/2 [psi]" }

/-- The titles assigned at the top of `GFunction`. -/
def gTitles : FigTitles :=
  { plot := "G-Function"
    x := "G-Function"
    y1 := "Pressure [psi]"
    y2 := "G.dp/dG [psi]"
    y3 := "dp/dG [psi]" }

/-- `BCAnalysis::SRTFunction`: sets the square-root-time titles, empties `x`
and pushes `sqrt(tD[i])` for every index of `tD`. -/
def SRTFunction {α : Type} (sqrt : α → α) (s : BCAnalysis α) : Option (BCAnalysis α) :=
  let figtitles : FigTitles := srtTitles
  let x0 : List α := []
  (forLoop (fun i x => (s.dfitanalysis.tD[i]?).map fun t => x ++ [sqrt t])
      s.dfitanalysis.tD.length 0 x0).map
    fun x => { s with figtitles := figtitles, x := x }

/-- The value pushed by one iteration of `GFunction`:
`4.0 / M_PI * 4 / 3 * (pow(1 + t, 3.0 / 2.0) - pow(t, 3.0 / 2.0) - 1.0)`. -/
def gValue {α : Type} [Field α] (pi : α) (pow : α → α → α) (t : α) : α :=
  4 / pi * 4 / 3 * (pow (1 + t) (3 / 2) - pow t (3 / 2) - 1)

/-- `BCAnalysis::GFunction`: sets the G-function titles, empties `x` and
pushes the G-function value of `tD[i]` for every index of `tD`. -/
def GFunction {α : Type} [Field α] (pi : α) (pow : α → α → α) (s : BCAnalysis α) :
    Option (BCAnalysis α) :=
  let figtitles : FigTitles := gTitles
  let x0 : List α := []
  (forLoop (fun i x => (s.dfitanalysis.tD[i]?).map fun t => x ++ [gValue pi pow t])
      s.dfitanalysis.tD.length 0 x0).map
    fun x => { s with figtitles := figtitles, x := x }

/-- `BCAnalysis::calculateDerivatives`.  `USE_EIGEN` is always defined at this
point of the file, so the branch compiled is the one that copies `x`, `p_shut`
and the just-emptied `dx` into `std::vector`s, calls
`FSHelper::smoothDerivative(xV, p_shutV, dwindow, dxV)` and copies `dxV` back.
`smoothDerivative` (declared outside this file) is a parameter: it receives
the two series, the window and the initial content of the output vector and
returns its final content. -/
def calculateDerivatives {α : Type} [Mul α]
    (smoothDerivative : List α → List α → Int → List α → List α) (s : BCAnalysis α) :
    Option (BCAnalysis α) :=
  let dx0 : List α := []
  let xdx0 : List α := []
  let dx := smoothDerivative s.x s.dfitanalysis.p_shut s.dwindow dx0
  (forLoop (fun i xdx => (s.x[i]?).bind fun a => (dx[i]?).map fun b => xdx ++ [a * b])
      s.dfitanalysis.tD.length 0 xdx0).map
    fun xdx => { s with dx := dx, xdx := xdx }

/-- What `dataCursorPlot` reads for the cursor: the index returned by the
lookup and the four values pushed into `x_crsr`, `y_crsr`, `xdx_crsr` and
`dx_crsr`. -/
structure CursorReading (α : Type) where
  pos : Nat
  x_crsr : α
  y_crsr : α
  xdx_crsr : α
  dx_crsr : α

/-- `BCAnalysis::dataCursorPlot`, the numerical part: `xcoord` is the plot
coordinate of the mouse position, `dtcrsr.pos = FSHelper::find(x, xcoord)`, and
the readings are `x[pos]`, `p_shut[pos]`, `xdx[pos]` and `dx[pos]`.  The lookup
`find` (declared outside this file) is a parameter. -/
def dataCursorPlot {α : Type} (find : List α → α → Option Nat) (s : BCAnalysis α)
    (xcoord : α) : Option (CursorReading α) :=
  (find s.x xcoord).bind fun pos =>
  (s.x[pos]?).bind fun xv =>
  (s.dfitanalysis.p_shut[pos]?).bind fun yv =>
  (s.xdx[pos]?).bind fun xdxv =>
  (s.dx[pos]?).map fun dxv =>
    { pos := pos, x_crsr := xv, y_crsr := yv, xdx_crsr := xdxv, dx_crsr := dxv }

/-! ## Helpers declared outside `bcanalysis.cpp` -/

namespace FSHelper

/-- Modelled from the spec: the scan behind `FSHelper::find`, whose source is
not part of `bcanalysis.cpp`.  It walks the remaining samples keeping the index
`best` of the smallest distance `d` seen so far, and moves to index `i` only
when `|x[i] - query|` is strictly smaller, so that of two equidistant indices
the lower one is kept. -/
def findScan {α : Type} [LinearOrderedRing α] (query : α) : List α → Nat → Nat → α → Nat
  | [], _, best, _ => best
  | v :: rest, i, best, d =>
    if |v - query| < d then findScan query rest (i + 1) i |v - query|
    else findScan query rest (i + 1) best d

/-- Modelled from the spec: `FSHelper::find`, whose source is not part of
`bcanalysis.cpp`, as the `nearest(x, query)` of the specification: the index
minimising `|x[i] - query|`, the lower index on a tie, and a failure (`none`,
the `EmptyInputError`) on an empty series. -/
def find {α : Type} [LinearOrderedRing α] (x : List α) (query : α) : Option Nat :=
  match x with
  | [] => none
  | v :: rest => some (findScan query rest 1 0 |v - query|)

/-- Modelled from the spec: the window of index `i` in a series of `N`
samples, the indices `max(0, i - w) .. min(N - 1, i + w)`. -/
def windowIndices (N : Nat) (w : Int) (i : Nat) : List Nat :=
  let lo := (max 0 ((i : Int) - w)).toNat
  let hi := (min ((N : Int) - 1) ((i : Int) + w)).toNat
  (List.range (hi + 1 - lo)).map fun k => lo + k

/-- Modelled from the spec: the derivative estimate over the points of one
window, the slope of their least-squares line, and `0` for a degenerate window
(fewer than two distinct x-values). -/
def windowSlope {α : Type} [Field α] [DecidableEq α] (pts : List (α × α)) : α :=
  if ∀ p ∈ pts, ∀ q ∈ pts, p.1 = q.1 then 0
  else
    let n : α := (pts.length : α)
    let sx := (pts.map fun p => p.1).sum
    let sy := (pts.map fun p => p.2).sum
    let sxy := (pts.map fun p => p.1 * p.2).sum
    let sxx := (pts.map fun p => p.1 * p.1).sum
    (n * sxy - sx * sy) / (n * sxx - sx * sx)

/-- Modelled from the spec: `FSHelper::smoothDerivative`, whose source is not
part of `bcanalysis.cpp`.  For every index of `x` it returns the least-squares
slope of `y` against `x` over the window of that index; the previous content
of the output vector is discarded. -/
def smoothDerivative {α : Type} [Field α] [DecidableEq α] (x y : List α) (w : Int)
    (_out : List α) : List α :=
  (List.range x.length).map fun i =>
    windowSlope ((windowIndices x.length w i).filterMap fun j =>
      (x[j]?).bind fun a => (y[j]?).map fun b => (a, b))

end FSHelper

/-! ## Concrete records -/

/-- A bare analysis object over a record: window `w`, no series computed yet. -/
def freshAnalysis {α : Type} (w : Int) (tD p_shut : List α) : BCAnalysis α :=
  { dwindow := w
    dfitanalysis := { tD := tD, p_shut := p_shut }
    x := []
    dx := []
    xdx := []
    figtitles := { plot := "", x := "", y1 := "", y2 := "", y3 := "" } }

/-- The record of the specification's worked scenario after `SRTFunction`:
`tD = [0,1,4,9,16]`, `p_shut = [100,90,80,70,60]`, window 1, `x = [0,1,2,3,4]`,
with `dx0` and `xdx0` as the content of `dx` and `xdx` left by earlier calls. -/
def scenarioSRT {α : Type} [Field α] (dx0 xdx0 : List α) : BCAnalysis α :=
  { dwindow := 1
    dfitanalysis := { tD := [0, 1, 4, 9, 16], p_shut := [100, 90, 80, 70, 60] }
    x := [0, 1, 2, 3, 4]
    dx := dx0
    xdx := xdx0
    figtitles := srtTitles }

/-- An analysis object right after a mode selection: titles and `x` set, `dx`
and `xdx` still empty. -/
def selectedAnalysis {α : Type} (titles : FigTitles) (w : Int) (tD p_shut x : List α) :
    BCAnalysis α :=
  { dwindow := w
    dfitanalysis := { tD := tD, p_shut := p_shut }
    x := x
    dx := []
    xdx := []
    figtitles := titles }

/-! ## Generic facts about the loops -/

theorem forLoop_push {α β : Type} (f : α → β) (l : List α) :
    ∀ (n i : Nat) (acc : List β), i + n = l.length →
      forLoop (fun i x => (l[i]?).map fun t => x ++ [f t]) n i acc
        = some (acc ++ (l.drop i).map f) := by
  intro n
  induction n with
  | zero =>
    intro i acc h
    have : l.drop i = [] := List.drop_eq_nil_of_le (by omega)
    simp [forLoop, this]
  | succ n ih =>
    intro i acc h
    have hi : i < l.length := by omega
    have hd : l.drop i = l[i] :: l.drop (i + 1) := List.drop_eq_getElem_cons hi
    simp only [forLoop, List.getElem?_eq_getElem hi, Option.map_some', Option.some_bind]
    rw [ih (i + 1) _ (by omega), hd, List.map_cons, List.append_assoc]
    rfl

theorem SRTFunction_eq {α : Type} (sqrt : α → α) (s : BCAnalysis α) :
    SRTFunction sqrt s
      = some { s with figtitles := srtTitles, x := s.dfitanalysis.tD.map sqrt } := by
  simp only [SRTFunction]
  rw [forLoop_push sqrt s.dfitanalysis.tD _ 0 [] (by simp)]
  simp

theorem GFunction_eq {α : Type} [Field α] (pi : α) (pow : α → α → α) (s : BCAnalysis α) :
    GFunction pi pow s
      = some { s with figtitles := gTitles, x := s.dfitanalysis.tD.map (gValue pi pow) } := by
  simp only [GFunction]
  rw [forLoop_push (gValue pi pow) s.dfitanalysis.tD _ 0 [] (by simp)]
  simp

theorem forLoop_mul_some {α : Type} [Mul α] (a b : List α) :
    ∀ (n i : Nat) (acc : List α), i + n ≤ a.length → i + n ≤ b.length →
      forLoop (fun i xdx => (a[i]?).bind fun u => (b[i]?).map fun v => xdx ++ [u * v]) n i acc
        = some (acc ++ ((List.zipWith (fun u v => u * v) a b).drop i).take n) := by
  intro n
  induction n with
  | zero =>
    intro i acc _ _
    simp [forLoop]
  | succ n ih =>
    intro i acc ha hb
    have hia : i < a.length := by omega
    have hib : i < b.length := by omega
    have hiz : i < (List.zipWith (fun u v => u * v) a b).length := by
      simp only [List.length_zipWith]
      omega
    have hd := List.drop_eq_getElem_cons hiz
    simp only [forLoop, List.getElem?_eq_getElem hia, List.getElem?_eq_getElem hib,
      Option.map_some', Option.some_bind]
    rw [ih (i + 1) _ (by omega) (by omega), hd, List.take_succ_cons, List.getElem_zipWith,
      List.append_assoc]
    rfl

theorem forLoop_mul_none {α : Type} [Mul α] (a b : List α) :
    ∀ (n i : Nat) (acc : List α), 0 < n → (a.length < i + n ∨ b.length < i + n) →
      forLoop (fun i xdx => (a[i]?).bind fun u => (b[i]?).map fun v => xdx ++ [u * v]) n i acc
        = none := by
  intro n
  induction n with
  | zero =>
    intro i acc h
    omega
  | succ n ih =>
    intro i acc _ h
    by_cases hia : i < a.length
    · by_cases hib : i < b.length
      · simp only [forLoop, List.getElem?_eq_getElem hia, List.getElem?_eq_getElem hib,
          Option.map_some', Option.some_bind]
        exact ih (i + 1) _ (by omega) (by omega)
      · simp [forLoop, List.getElem?_eq_none (not_lt.mp hib)]
    · simp [forLoop, List.getElem?_eq_none (not_lt.mp hia)]

theorem calculateDerivatives_eq_some {α : Type} [Mul α]
    (sd : List α → List α → Int → List α → List α) (s : BCAnalysis α)
    (hx : s.dfitanalysis.tD.length ≤ s.x.length)
    (hd : s.dfitanalysis.tD.length ≤ (sd s.x s.dfitanalysis.p_shut s.dwindow []).length) :
    calculateDerivatives sd s
      = some { s with
          dx := sd s.x s.dfitanalysis.p_shut s.dwindow []
          xdx := (List.zipWith (fun u v => u * v) s.x
            (sd s.x s.dfitanalysis.p_shut s.dwindow [])).take s.dfitanalysis.tD.length } := by
  simp only [calculateDerivatives]
  rw [forLoop_mul_some _ _ _ 0 [] (by simpa using hx) (by simpa using hd)]
  simp

theorem calculateDerivatives_eq_none {α : Type} [Mul α]
    (sd : List α → List α → Int → List α → List α) (s : BCAnalysis α)
    (h : s.x.length < s.dfitanalysis.tD.length ∨
      (sd s.x s.dfitanalysis.p_shut s.dwindow []).length < s.dfitanalysis.tD.length) :
    calculateDerivatives sd s = none := by
  simp only [calculateDerivatives]
  rw [forLoop_mul_none _ _ _ 0 [] (by omega) (by simpa using h)]
  rfl

theorem smoothDerivative_length {α : Type} [Field α] [DecidableEq α] (x y : List α) (w : Int)
    (out : List α) : (FSHelper.smoothDerivative x y w out).length = x.length := by
  simp [FSHelper.smoothDerivative]

/-! ## Real-number facts -/

theorem sqrt_four : Real.sqrt 4 = 2 := by
  rw [show (4 : ℝ) = 2 * 2 by norm_num]
  exact Real.sqrt_mul_self (by norm_num)

theorem sqrt_nine : Real.sqrt 9 = 3 := by
  rw [show (9 : ℝ) = 3 * 3 by norm_num]
  exact Real.sqrt_mul_self (by norm_num)

theorem sqrt_sixteen : Real.sqrt 16 = 4 := by
  rw [show (16 : ℝ) = 4 * 4 by norm_num]
  exact Real.sqrt_mul_self (by norm_num)

theorem scenario_smoothDerivative :
    FSHelper.smoothDerivative ([0, 1, 2, 3, 4] : List ℝ) [100, 90, 80, 70, 60] 1 []
      = [-10, -10, -10, -10, -10] := by
  simp [FSHelper.smoothDerivative, FSHelper.windowIndices, FSHelper.windowSlope, List.range_succ]
  norm_num

theorem mismatch_smoothDerivative :
    FSHelper.smoothDerivative ([0, 1] : List ℝ) [50, 50, 50] 15 [] = [0, 0] := by
  simp [FSHelper.smoothDerivative, FSHelper.windowIndices, FSHelper.windowSlope, List.range_succ]
  norm_num

theorem twoPoint_smoothDerivative :
    FSHelper.smoothDerivative ([0, 1] : List ℝ) [10, 7] 15 [] = [-3, -3] := by
  simp [FSHelper.smoothDerivative, FSHelper.windowIndices, FSHelper.windowSlope, List.range_succ]
  norm_num

theorem scenario_calculateDerivatives (dx0 xdx0 : List ℝ) :
    calculateDerivatives FSHelper.smoothDerivative (scenarioSRT dx0 xdx0)
      = some { (scenarioSRT dx0 xdx0 : BCAnalysis ℝ) with
          dx := [-10, -10, -10, -10, -10]
          xdx := [0, -10, -20, -30, -40] } := by
  rw [calculateDerivatives_eq_some _ _ (by simp [scenarioSRT])
    (by simp [smoothDerivative_length, scenarioSRT])]
  simp [scenarioSRT, scenario_smoothDerivative]
  norm_num

/-- The code's expression and the closed form `16/(3π)·((1+t)^1.5 − t^1.5 − 1)`
are the same real number. -/
theorem gValue_real (t : ℝ) :
    gValue Real.pi (fun a b => a ^ b) t
      = 16 / (3 * Real.pi) * ((1 + t) ^ (1.5 : ℝ) - t ^ (1.5 : ℝ) - 1) := by
  have h : (1.5 : ℝ) = 3 / 2 := by norm_num
  have hpi : Real.pi ≠ 0 := Real.pi_ne_zero
  simp only [gValue, h]
  field_simp
  ring

/-- The increment `(1+t)^(3/2) − t^(3/2)` grows strictly with `t ≥ 0`, by strict
convexity of `u ↦ u^(3/2)` on the non-negative reals. -/
theorem rpow_increment_strictMono (s t : ℝ) (hs : 0 ≤ s) (hst : s < t) :
    (1 + s) ^ (3 / 2 : ℝ) - s ^ (3 / 2 : ℝ) < (1 + t) ^ (3 / 2 : ℝ) - t ^ (3 / 2 : ℝ) := by
  have hc : StrictConvexOn ℝ (Set.Ici 0) fun u : ℝ => u ^ (3 / 2 : ℝ) :=
    strictConvexOn_rpow (by norm_num)
  have ms : s ∈ Set.Ici (0 : ℝ) := hs
  have mt : t ∈ Set.Ici (0 : ℝ) := by
    show (0 : ℝ) ≤ t
    linarith
  have ms1 : 1 + s ∈ Set.Ici (0 : ℝ) := by
    show (0 : ℝ) ≤ 1 + s
    linarith
  have mt1 : 1 + t ∈ Set.Ici (0 : ℝ) := by
    show (0 : ℝ) ≤ 1 + t
    linarith
  have h1 := hc.secant_strict_mono ms ms1 mt1 (by linarith) (by linarith)
    (by linarith : 1 + s < 1 + t)
  have h2 := hc.secant_strict_mono mt1 ms mt (by linarith) (by linarith) hst
  simp only at h1 h2
  have e1 : 1 + s - s = 1 := by ring
  have e2 : t - (1 + t) = -1 := by ring
  rw [e1, div_one] at h1
  rw [e2, div_neg, div_one, neg_sub] at h2
  have hpos : 0 < 1 + t - s := by linarith
  have e3 : ((1 + t) ^ (3 / 2 : ℝ) - s ^ (3 / 2 : ℝ)) / (1 + t - s)
      = (s ^ (3 / 2 : ℝ) - (1 + t) ^ (3 / 2 : ℝ)) / (s - (1 + t)) := by
    rw [← neg_sub (1 + t) s, ← neg_sub ((1 + t) ^ (3 / 2 : ℝ)) (s ^ (3 / 2 : ℝ)), neg_div_neg_eq]
  linarith [e3 ▸ h1]

/-! ## The time transforms -/

/-- C1: for every non-negative elapsed-time record `tD` of length `N`,
`SRTFunction` returns, whatever `x` held before, a state whose `x` has length `N`
with `x[i] = sqrt(tD[i])` at every index; for `tD = [0,1,4,9,16]` this `x` is
`[0,1,2,3,4]`. -/
theorem SRTFunction_sqrt_pointwise (s : BCAnalysis ℝ)
    (_hpos : ∀ t ∈ s.dfitanalysis.tD, 0 ≤ t) :
    ∃ s', SRTFunction Real.sqrt s = some s' ∧
      s'.x.length = s.dfitanalysis.tD.length ∧
      (∀ i (h : i < s.dfitanalysis.tD.length),
        s'.x[i]? = some (Real.sqrt s.dfitanalysis.tD[i])) ∧
      (s.dfitanalysis.tD = [0, 1, 4, 9, 16] → s'.x = [0, 1, 2, 3, 4]) := by
  refine ⟨_, SRTFunction_eq Real.sqrt s, by simp, ?_, ?_⟩
  · intro i h
    simp [List.getElem?_eq_getElem h]
  · intro h
    simp [h, sqrt_four, sqrt_nine, sqrt_sixteen]

theorem SRTFunction_sqrt_pointwise_witness :
    (∀ t ∈ (freshAnalysis 15 [0, 1, 4, 9, 16] [100, 90, 80, 70, 60]
        : BCAnalysis ℝ).dfitanalysis.tD, 0 ≤ t) ∧
    ∃ s', SRTFunction Real.sqrt
        { (freshAnalysis 15 [0, 1, 4, 9, 16] [100, 90, 80, 70, 60] : BCAnalysis ℝ) with
          x := [7, 7, 7] } = some s' ∧
      s'.x = [0, 1, 2, 3, 4] := by
  have hpos : ∀ t ∈ (freshAnalysis 15 [0, 1, 4, 9, 16] [100, 90, 80, 70, 60]
      : BCAnalysis ℝ).dfitanalysis.tD, 0 ≤ t := by
    simp [freshAnalysis]
  refine ⟨hpos, ?_⟩
  obtain ⟨s', h, _, _, hx⟩ := SRTFunction_sqrt_pointwise
    { (freshAnalysis 15 [0, 1, 4, 9, 16] [100, 90, 80, 70, 60] : BCAnalysis ℝ) with
      x := [7, 7, 7] } hpos
  exact ⟨s', h, hx rfl⟩

/-- C2: for every non-negative elapsed-time record `tD` of length `N`,
`GFunction` returns a state whose `x` has length `N` with
`x[i] = (16/(3π))·((1+t)^1.5 − t^1.5 − 1)`, `t = tD[i]`, at every index; the
expression the code evaluates, `4/π·4/3·((1+t)^(3/2) − t^(3/2) − 1)`, equals that
closed form over the reals. -/
theorem GFunction_closed_form (s : BCAnalysis ℝ)
    (_hpos : ∀ t ∈ s.dfitanalysis.tD, 0 ≤ t) :
    ∃ s', GFunction Real.pi (fun a b => a ^ b) s = some s' ∧
      s'.x.length = s.dfitanalysis.tD.length ∧
      (∀ i (h : i < s.dfitanalysis.tD.length),
        s'.x[i]? = some (16 / (3 * Real.pi) *
          ((1 + s.dfitanalysis.tD[i]) ^ (1.5 : ℝ) - s.dfitanalysis.tD[i] ^ (1.5 : ℝ) - 1))) ∧
      (∀ t : ℝ, 4 / Real.pi * 4 / 3 * ((1 + t) ^ (3 / 2 : ℝ) - t ^ (3 / 2 : ℝ) - 1)
          = 16 / (3 * Real.pi) * ((1 + t) ^ (1.5 : ℝ) - t ^ (1.5 : ℝ) - 1)) := by
  refine ⟨_, GFunction_eq Real.pi _ s, by simp, ?_, ?_⟩
  · intro i h
    simp only [List.getElem?_map, List.getElem?_eq_getElem h, Option.map_some', gValue_real]
  · intro t
    exact gValue_real t

theorem GFunction_closed_form_witness :
    (∀ t ∈ (freshAnalysis 15 [0, 1] [10, 7] : BCAnalysis ℝ).dfitanalysis.tD, 0 ≤ t) ∧
    ∃ s', GFunction Real.pi (fun a b => a ^ b)
        (freshAnalysis 15 [0, 1] [10, 7] : BCAnalysis ℝ) = some s' ∧
      s'.x.length = 2 ∧
      s'.x[1]? = some (16 / (3 * Real.pi) * ((1 + 1) ^ (1.5 : ℝ) - 1 ^ (1.5 : ℝ) - 1)) := by
  have hpos : ∀ t ∈ (freshAnalysis 15 [0, 1] [10, 7] : BCAnalysis ℝ).dfitanalysis.tD,
      0 ≤ t := by
    simp [freshAnalysis]
  refine ⟨hpos, ?_⟩
  obtain ⟨s', h, hlen, hx, _⟩ := GFunction_closed_form
    (freshAnalysis 15 [0, 1] [10, 7] : BCAnalysis ℝ) hpos
  exact ⟨s', h, hlen, hx 1 (by simp [freshAnalysis])⟩

/-- C4: the value `G(t) = 4/π·4/3·((1+t)^(3/2) − t^(3/2) − 1)` pushed by
`GFunction` satisfies `G(0) = 0` and, for all reals `0 ≤ s < t`, `G(s) < G(t)`. -/
theorem gValue_zero_and_strictMono (s t : ℝ) (hs : 0 ≤ s) (hst : s < t) :
    gValue Real.pi (fun a b => a ^ b) 0 = 0 ∧
      gValue Real.pi (fun a b => a ^ b) s < gValue Real.pi (fun a b => a ^ b) t := by
  constructor
  · simp [gValue]
  · have hinc := rpow_increment_strictMono s t hs hst
    have hc : 0 < 4 / Real.pi * 4 / 3 := by positivity
    simp only [gValue]
    apply mul_lt_mul_of_pos_left _ hc
    linarith

theorem gValue_zero_and_strictMono_witness :
    (0 : ℝ) ≤ 0 ∧ (0 : ℝ) < 1 ∧
      gValue Real.pi (fun a b => a ^ b) 0 = 0 ∧
      gValue Real.pi (fun a b => a ^ b) 0 < gValue Real.pi (fun a b => a ^ b) 1 :=
  ⟨le_refl 0, zero_lt_one,
    gValue_zero_and_strictMono 0 1 (le_refl 0) zero_lt_one⟩

/-- C5: for every non-negative, non-decreasing elapsed-time record `tD`, the `x`
series produced by `SRTFunction` is non-decreasing, and an entry `tD[i] = 0` is
mapped to `x[i] = 0`. -/
theorem SRTFunction_monotone (s : BCAnalysis ℝ)
    (_hpos : ∀ t ∈ s.dfitanalysis.tD, 0 ≤ t)
    (hmono : ∀ i j (hj : j < s.dfitanalysis.tD.length) (hij : i ≤ j),
      s.dfitanalysis.tD[i] ≤ s.dfitanalysis.tD[j]) :
    ∃ s', SRTFunction Real.sqrt s = some s' ∧
      (∀ (i j : Nat) (a b : ℝ), i ≤ j → s'.x[i]? = some a → s'.x[j]? = some b → a ≤ b) ∧
      (∀ i : Nat, s.dfitanalysis.tD[i]? = some 0 → s'.x[i]? = some 0) := by
  refine ⟨_, SRTFunction_eq Real.sqrt s, ?_, ?_⟩
  · intro i j a b hij ha hb
    simp only [List.getElem?_map, Option.map_eq_some'] at ha hb
    obtain ⟨u, hu, rfl⟩ := ha
    obtain ⟨v, hv, rfl⟩ := hb
    obtain ⟨hj, rfl⟩ := List.getElem?_eq_some_iff.mp hv
    obtain ⟨hi, rfl⟩ := List.getElem?_eq_some_iff.mp hu
    exact Real.sqrt_le_sqrt (hmono i j hj hij)
  · intro i h
    simp [h]

theorem SRTFunction_monotone_witness :
    ∃ s', SRTFunction Real.sqrt
        (freshAnalysis 15 [0, 0, 4, 9] [100, 90, 80, 70] : BCAnalysis ℝ) = some s' ∧
      (∀ (i j : Nat) (a b : ℝ), i ≤ j → s'.x[i]? = some a → s'.x[j]? = some b → a ≤ b) ∧
      s'.x[1]? = some 0 := by
  obtain ⟨s', h, hm, hz⟩ := SRTFunction_monotone
    (freshAnalysis 15 [0, 0, 4, 9] [100, 90, 80, 70] : BCAnalysis ℝ)
    (by simp [freshAnalysis])
    (by
      intro i j hj hij
      simp only [freshAnalysis, List.length_cons, List.length_nil] at hj
      have hj4 : j < 4 := by omega
      interval_cases j <;> interval_cases i <;> norm_num [freshAnalysis])
  exact ⟨s', h, hm, hz 1 (by simp [freshAnalysis])⟩

/-! ## The derivative recomputation -/

/-- C3: after a mode selection (`SRTFunction` or `GFunction`) on a record of
length `N`, and assuming `smoothDerivative` returns `N` values,
`calculateDerivatives` returns a state in which `x`, `dx` and `xdx` all have
length `N` and `xdx[i] = x[i] * dx[i]` at every index `i < N`. -/
theorem calculateDerivatives_product {α : Type} [Field α] (sqrt : α → α) (pi : α)
    (pow : α → α → α) (sd : List α → List α → Int → List α → List α)
    (s s1 : BCAnalysis α)
    (hmode : SRTFunction sqrt s = some s1 ∨ GFunction pi pow s = some s1)
    (hsd : (sd s1.x s1.dfitanalysis.p_shut s1.dwindow []).length
      = s.dfitanalysis.tD.length) :
    ∃ s2, calculateDerivatives sd s1 = some s2 ∧
      s2.x.length = s.dfitanalysis.tD.length ∧
      s2.dx.length = s.dfitanalysis.tD.length ∧
      s2.xdx.length = s.dfitanalysis.tD.length ∧
      ∀ i : Nat, i < s.dfitanalysis.tD.length →
        ∃ a b, s2.x[i]? = some a ∧ s2.dx[i]? = some b ∧ s2.xdx[i]? = some (a * b) := by
  have hs1 : s1.dfitanalysis.tD = s.dfitanalysis.tD ∧
      s1.x.length = s.dfitanalysis.tD.length := by
    rcases hmode with h | h
    · rw [SRTFunction_eq] at h
      cases h
      simp
    · rw [GFunction_eq] at h
      cases h
      simp
  obtain ⟨htD, hxlen⟩ := hs1
  have hN : s1.dfitanalysis.tD.length = s.dfitanalysis.tD.length := by rw [htD]
  refine ⟨_, calculateDerivatives_eq_some sd s1 (by omega) (by omega), ?_, ?_, ?_, ?_⟩
  · exact hxlen
  · exact hsd
  · simp only [List.length_take, List.length_zipWith]
    omega
  · intro i hi
    have hix : i < s1.x.length := by omega
    have hid : i < (sd s1.x s1.dfitanalysis.p_shut s1.dwindow []).length := by omega
    refine ⟨s1.x[i], (sd s1.x s1.dfitanalysis.p_shut s1.dwindow [])[i],
      List.getElem?_eq_getElem hix, List.getElem?_eq_getElem hid, ?_⟩
    simp only [htD]
    rw [List.getElem?_take_of_lt hi, List.getElem?_eq_getElem (by
      simp only [List.length_zipWith]
      omega), List.getElem_zipWith]

theorem calculateDerivatives_product_witness :
    ∃ s2 : BCAnalysis ℝ,
      calculateDerivatives FSHelper.smoothDerivative (scenarioSRT [] []) = some s2 ∧
      s2.x.length = 5 ∧ s2.dx.length = 5 ∧ s2.xdx.length = 5 ∧
      s2.x[2]? = some (2 : ℝ) ∧ s2.dx[2]? = some (-10 : ℝ) ∧ s2.xdx[2]? = some (-20 : ℝ) := by
  obtain ⟨s2, h, hx, hdx, hxdx, _⟩ := calculateDerivatives_product Real.sqrt Real.pi
    (fun a b => a ^ b) FSHelper.smoothDerivative
    (freshAnalysis 1 [0, 1, 4, 9, 16] [100, 90, 80, 70, 60] : BCAnalysis ℝ)
    (scenarioSRT [] [])
    (Or.inl (by
      rw [SRTFunction_eq]
      simp [freshAnalysis, scenarioSRT, sqrt_four, sqrt_nine, sqrt_sixteen]))
    (by simp [smoothDerivative_length, freshAnalysis, scenarioSRT])
  refine ⟨s2, h, hx, hdx, hxdx, ?_⟩
  rw [scenario_calculateDerivatives] at h
  cases h
  simp [scenarioSRT]

/-- C10: `calculateDerivatives` sets `dx` to `smoothDerivative` applied to `x`,
`p_shut`, `dwindow` and an empty output, and rebuilds `xdx` from scratch: two
states that agree on `x`, `p_shut`, `tD` and `dwindow` get the same `dx` and
`xdx` whatever their previous `dx` and `xdx`, a second call in a row changes
nothing, and the call succeeds whenever `x` and the returned `dx` have at least
`len(tD)` entries. -/
theorem calculateDerivatives_total {α : Type} [Mul α]
    (sd : List α → List α → Int → List α → List α) (s t : BCAnalysis α)
    (hx : s.x = t.x) (hp : s.dfitanalysis.p_shut = t.dfitanalysis.p_shut)
    (htD : s.dfitanalysis.tD = t.dfitanalysis.tD) (hw : s.dwindow = t.dwindow) :
    (calculateDerivatives sd s).map (fun r => (r.dx, r.xdx))
        = (calculateDerivatives sd t).map (fun r => (r.dx, r.xdx)) ∧
      (calculateDerivatives sd s).bind (calculateDerivatives sd) = calculateDerivatives sd s ∧
      (∀ r, calculateDerivatives sd s = some r →
        r.dx = sd s.x s.dfitanalysis.p_shut s.dwindow [] ∧
        r.xdx = (List.zipWith (fun u v => u * v) s.x r.dx).take s.dfitanalysis.tD.length) ∧
      (s.dfitanalysis.tD.length ≤ s.x.length →
        s.dfitanalysis.tD.length ≤ (sd s.x s.dfitanalysis.p_shut s.dwindow []).length →
        (calculateDerivatives sd s).isSome) := by
  have key : ∀ u : BCAnalysis α,
      (u.dfitanalysis.tD.length ≤ u.x.length ∧
        u.dfitanalysis.tD.length ≤ (sd u.x u.dfitanalysis.p_shut u.dwindow []).length) ∨
      (u.x.length < u.dfitanalysis.tD.length ∨
        (sd u.x u.dfitanalysis.p_shut u.dwindow []).length < u.dfitanalysis.tD.length) := by
    intro u
    omega
  refine ⟨?_, ?_, ?_, ?_⟩
  · rcases key s with ⟨h1, h2⟩ | h
    · rw [calculateDerivatives_eq_some sd s h1 h2,
        calculateDerivatives_eq_some sd t (by rw [← hx, ← htD]; exact h1)
          (by rw [← hx, ← htD, ← hp, ← hw]; exact h2)]
      simp [hx, hp, htD, hw]
    · rw [calculateDerivatives_eq_none sd s h,
        calculateDerivatives_eq_none sd t (by rw [← hx, ← htD, ← hp, ← hw]; exact h)]
  · rcases key s with ⟨h1, h2⟩ | h
    · rw [calculateDerivatives_eq_some sd s h1 h2, Option.some_bind]
      exact calculateDerivatives_eq_some sd
        { s with
          dx := sd s.x s.dfitanalysis.p_shut s.dwindow []
          xdx := (List.zipWith (fun u v => u * v) s.x
            (sd s.x s.dfitanalysis.p_shut s.dwindow [])).take s.dfitanalysis.tD.length }
        h1 h2
    · rw [calculateDerivatives_eq_none sd s h]
      rfl
  · intro r hr
    rcases key s with ⟨h1, h2⟩ | h
    · rw [calculateDerivatives_eq_some sd s h1 h2] at hr
      cases hr
      exact ⟨rfl, rfl⟩
    · rw [calculateDerivatives_eq_none sd s h] at hr
      cases hr
  · intro h1 h2
    rw [calculateDerivatives_eq_some sd s h1 h2]
    rfl

theorem calculateDerivatives_total_witness :
    ∃ r : BCAnalysis ℝ,
      calculateDerivatives FSHelper.smoothDerivative (scenarioSRT [1, 2] [9]) = some r ∧
      (calculateDerivatives FSHelper.smoothDerivative (scenarioSRT [] [5, 5, 5])).map
          (fun r => (r.dx, r.xdx)) = some (r.dx, r.xdx) ∧
      calculateDerivatives FSHelper.smoothDerivative r = some r ∧
      r.dx = [-10, -10, -10, -10, -10] ∧ r.xdx = [0, -10, -20, -30, -40] := by
  obtain ⟨hsame, hidem, _, _⟩ := calculateDerivatives_total FSHelper.smoothDerivative
    (scenarioSRT [1, 2] [9] : BCAnalysis ℝ) (scenarioSRT [] [5, 5, 5]) rfl rfl rfl rfl
  rw [scenario_calculateDerivatives] at hsame hidem
  refine ⟨_, scenario_calculateDerivatives _ _, hsame.symm, ?_, rfl, rfl⟩
  simpa using hidem

/-! ## The nearest-sample lookup -/

theorem findScan_spec {α : Type} [LinearOrderedRing α] (q : α) (x : List α) :
    ∀ (rest : List α) (i best : Nat) (d vb : α),
      x.drop i = rest → best < i → x[best]? = some vb → |vb - q| = d →
      (∀ (k : Nat) (v : α), k < i → x[k]? = some v → d ≤ |v - q|) →
      (∀ (k : Nat) (v : α), k < best → x[k]? = some v → d < |v - q|) →
      ∃ vr, x[FSHelper.findScan q rest i best d]? = some vr ∧
        (∀ (k : Nat) (v : α), x[k]? = some v → |vr - q| ≤ |v - q|) ∧
        (∀ (k : Nat) (v : α), k < FSHelper.findScan q rest i best d →
          x[k]? = some v → |vr - q| < |v - q|) := by
  intro rest
  induction rest with
  | nil =>
    intro i best d vb hdrop _ hvb hd hle hlt
    have hlen : x.length ≤ i := List.drop_eq_nil_iff.mp hdrop
    refine ⟨vb, by simpa [FSHelper.findScan] using hvb, ?_, ?_⟩
    · intro k v hk
      have hkl : k < x.length := (List.getElem?_eq_some_iff.mp hk).1
      rw [hd]
      exact hle k v (by omega) hk
    · intro k v hkb hk
      rw [hd]
      exact hlt k v (by simpa [FSHelper.findScan] using hkb) hk
  | cons w rest ih =>
    intro i best d vb hdrop hbi hvb hd hle hlt
    have hi : x[i]? = some w := by
      have h0 : (x.drop i)[0]? = some w := by rw [hdrop]; simp
      simpa using h0
    have hdrop1 : x.drop (i + 1) = rest := by
      have h1 : (x.drop i).drop 1 = rest := by rw [hdrop]; rfl
      simpa [List.drop_drop, Nat.add_comm] using h1
    by_cases hw : |w - q| < d
    · simp only [FSHelper.findScan, if_pos hw]
      apply ih (i + 1) i |w - q| w hdrop1 (by omega) hi rfl
      · intro k v hk hkv
        rcases Nat.lt_succ_iff_lt_or_eq.mp hk with hk1 | hk1
        · exact le_of_lt (lt_of_lt_of_le hw (hle k v hk1 hkv))
        · subst hk1
          rw [hi] at hkv
          cases hkv
          exact le_refl _
      · intro k v hk hkv
        exact lt_of_lt_of_le hw (hle k v hk hkv)
    · simp only [FSHelper.findScan, if_neg hw]
      apply ih (i + 1) best d vb hdrop1 (by omega) hvb hd
      · intro k v hk hkv
        rcases Nat.lt_succ_iff_lt_or_eq.mp hk with hk1 | hk1
        · exact hle k v hk1 hkv
        · subst hk1
          rw [hi] at hkv
          cases hkv
          exact not_lt.mp hw
      · exact hlt

theorem find_example : FSHelper.find ([0, 1, 2, 3] : List ℝ) 1.6 = some 2 := by
  norm_num [FSHelper.find, FSHelper.findScan, abs_of_neg, abs_of_pos]

/-- C6 (amended): for every non-empty series `x` and every query `q`, the index
`pos` that `dataCursorPlot` obtains from the lookup lies in `[0, N)`, minimises
`|x[i] - q|` over all `i`, and is the lowest index doing so; hence if `q` equals
`x[k]` it returns the lowest index holding the value `q`, which is `k` itself
whenever no earlier entry equals `x[k]`. -/
theorem find_nearest {α : Type} [LinearOrderedRing α] (x : List α) (q : α) (hne : x ≠ []) :
    ∃ pos vp, FSHelper.find x q = some pos ∧ pos < x.length ∧ x[pos]? = some vp ∧
      (∀ (k : Nat) (v : α), x[k]? = some v → |vp - q| ≤ |v - q|) ∧
      (∀ (k : Nat) (v : α), k < pos → x[k]? = some v → |vp - q| < |v - q|) ∧
      (∀ k : Nat, x[k]? = some q → vp = q ∧ pos ≤ k) ∧
      (∀ k : Nat, x[k]? = some q → (∀ j : Nat, j < k → x[j]? ≠ some q) → pos = k) ∧
      (∀ (s : BCAnalysis α) (c : CursorReading α), s.x = x →
        dataCursorPlot FSHelper.find s q = some c → c.pos = pos ∧ c.x_crsr = vp) ∧
      (∀ s : BCAnalysis α, s.x = x → x.length ≤ s.dfitanalysis.p_shut.length →
        x.length ≤ s.xdx.length → x.length ≤ s.dx.length →
        (dataCursorPlot FSHelper.find s q).isSome) := by
  cases x with
  | nil => exact absurd rfl hne
  | cons v rest =>
    obtain ⟨vr, hvr, hmin, hlow⟩ := findScan_spec q (v :: rest) rest 1 0 |v - q| v
      (by simp) (by omega) (by simp) rfl
      (by
        intro k w hk hkw
        have hk0 : k = 0 := by omega
        subst hk0
        simp only [List.getElem?_cons_zero, Option.some.injEq] at hkw
        rw [hkw])
      (by
        intro k w hk
        omega)
    have hfind : FSHelper.find (v :: rest) q = some (FSHelper.findScan q rest 1 0 |v - q|) := rfl
    have hpos : FSHelper.findScan q rest 1 0 |v - q| < (v :: rest).length :=
      (List.getElem?_eq_some_iff.mp hvr).1
    have hexact : ∀ k : Nat, (v :: rest)[k]? = some q →
        vr = q ∧ FSHelper.findScan q rest 1 0 |v - q| ≤ k := by
      intro k hk
      have h0 : |vr - q| ≤ 0 := by simpa using hmin k q hk
      have hvq : vr = q := sub_eq_zero.mp (abs_eq_zero.mp (le_antisymm h0 (abs_nonneg _)))
      refine ⟨hvq, ?_⟩
      by_contra hlt
      have := hlow k q (not_le.mp hlt) hk
      simp [hvq] at this
    refine ⟨_, vr, hfind, hpos, hvr, hmin, hlow, hexact, ?_, ?_, ?_⟩
    · intro k hk hfirst
      obtain ⟨hvq, hle⟩ := hexact k hk
      rcases Nat.lt_or_eq_of_le hle with h | h
      · exact absurd (hvq ▸ hvr) (hfirst _ h)
      · exact h
    · intro s c hs hc
      simp only [dataCursorPlot, hs, hfind, Option.some_bind, hvr] at hc
      simp only [Option.bind_eq_some, Option.map_eq_some'] at hc
      obtain ⟨_, _, _, _, _, _, rfl⟩ := hc
      exact ⟨rfl, rfl⟩
    · intro s hs hp hxdx hdx
      have h1 := List.getElem?_eq_getElem (lt_of_lt_of_le hpos hp)
      have h2 := List.getElem?_eq_getElem (lt_of_lt_of_le hpos hxdx)
      have h3 := List.getElem?_eq_getElem (lt_of_lt_of_le hpos hdx)
      simp [dataCursorPlot, hs, hfind, hvr, h1, h2, h3]

theorem find_nearest_witness :
    ([0, 1, 2, 3] : List ℝ) ≠ [] ∧
    FSHelper.find ([0, 1, 2, 3] : List ℝ) 1.6 = some 2 ∧
    ∀ (k : Nat) (v : ℝ), ([0, 1, 2, 3] : List ℝ)[k]? = some v →
      |(2 : ℝ) - 1.6| ≤ |v - 1.6| := by
  have hne : ([0, 1, 2, 3] : List ℝ) ≠ [] := by simp
  obtain ⟨pos, vp, hfind, _, hvp, hmin, _⟩ := find_nearest ([0, 1, 2, 3] : List ℝ) 1.6 hne
  rw [find_example] at hfind
  cases hfind
  simp only [List.getElem?_cons_succ, List.getElem?_cons_zero, Option.some.injEq] at hvp
  subst hvp
  exact ⟨hne, find_example, hmin⟩

/-- C6, as stated, fails on a series with a repeated value: `q = x[1]` in
`x = [1, 1]`, and the lookup returns index 0, not 1. -/
theorem find_repeated_value_counterexample :
    ([1, 1] : List ℝ)[1]? = some 1 ∧ FSHelper.find ([1, 1] : List ℝ) 1 = some 0 ∧
      FSHelper.find ([1, 1] : List ℝ) 1 ≠ some 1 := by
  have h : FSHelper.find ([1, 1] : List ℝ) 1 = some 0 := by
    simp [FSHelper.find, FSHelper.findScan]
  refine ⟨by simp, h, ?_⟩
  rw [h]
  simp

/-! ## Validation and mode switching -/

/-- C7 (amended): `calculateDerivatives` does no shape validation.  When the
elapsed-time and pressure records have different lengths, mode selection
followed by `calculateDerivatives` still runs `smoothDerivative` on `x` and
`p_shut`, and whenever that returns at least `len(tD)` values the call succeeds
with that `dx` stored whole and an `xdx` of length `len(tD)` holding
`x[i] * dx[i]`. -/
theorem calculateDerivatives_no_shape_check {α : Type} [Field α] (sqrt : α → α) (pi : α)
    (pow : α → α → α) (sd : List α → List α → Int → List α → List α)
    (s s1 : BCAnalysis α)
    (hmode : SRTFunction sqrt s = some s1 ∨ GFunction pi pow s = some s1)
    (_hshape : s.dfitanalysis.tD.length ≠ s.dfitanalysis.p_shut.length)
    (hsd : s.dfitanalysis.tD.length
      ≤ (sd s1.x s.dfitanalysis.p_shut s.dwindow []).length) :
    ∃ r, calculateDerivatives sd s1 = some r ∧
      r.dx = sd s1.x s.dfitanalysis.p_shut s.dwindow [] ∧
      r.xdx.length = s.dfitanalysis.tD.length ∧
      ∀ i : Nat, i < s.dfitanalysis.tD.length →
        ∃ a b, r.x[i]? = some a ∧ r.dx[i]? = some b ∧ r.xdx[i]? = some (a * b) := by
  have hs1 : s1.dfitanalysis = s.dfitanalysis ∧ s1.dwindow = s.dwindow ∧
      s1.x.length = s.dfitanalysis.tD.length := by
    rcases hmode with h | h
    · rw [SRTFunction_eq] at h
      cases h
      simp
    · rw [GFunction_eq] at h
      cases h
      simp
  obtain ⟨hdf, hw, hxlen⟩ := hs1
  have hN : s1.dfitanalysis.tD.length = s.dfitanalysis.tD.length := by rw [hdf]
  have hsd1 : s1.dfitanalysis.tD.length
      ≤ (sd s1.x s1.dfitanalysis.p_shut s1.dwindow []).length := by
    rw [hdf, hw]
    exact hsd
  refine ⟨_, calculateDerivatives_eq_some sd s1 (by omega) hsd1, ?_, ?_, ?_⟩
  · simp only [hdf, hw]
  · simp only [List.length_take, List.length_zipWith, hdf, hw]
    omega
  · intro i hi
    have hix : i < s1.x.length := by omega
    have hid : i < (sd s1.x s1.dfitanalysis.p_shut s1.dwindow []).length := by omega
    refine ⟨s1.x[i], (sd s1.x s1.dfitanalysis.p_shut s1.dwindow [])[i],
      List.getElem?_eq_getElem hix, List.getElem?_eq_getElem hid, ?_⟩
    simp only []
    rw [List.getElem?_take_of_lt (by omega), List.getElem?_eq_getElem (by
      simp only [List.length_zipWith]
      omega), List.getElem_zipWith]

theorem calculateDerivatives_no_shape_check_witness :
    ∃ r : BCAnalysis ℝ,
      calculateDerivatives FSHelper.smoothDerivative
        (selectedAnalysis srtTitles 15 [0, 1] [50, 50, 50] [0, 1]) = some r ∧
      r.dx = [0, 0] ∧ r.xdx.length = 2 := by
  obtain ⟨r, h, hdx, hlen, _⟩ := calculateDerivatives_no_shape_check Real.sqrt Real.pi
    (fun a b => a ^ b) FSHelper.smoothDerivative
    (freshAnalysis 15 [0, 1] [50, 50, 50] : BCAnalysis ℝ)
    (selectedAnalysis srtTitles 15 [0, 1] [50, 50, 50] [0, 1])
    (Or.inl (by
      rw [SRTFunction_eq]
      simp [freshAnalysis, selectedAnalysis]))
    (by simp [freshAnalysis])
    (by simp [smoothDerivative_length, freshAnalysis, selectedAnalysis])
  refine ⟨r, h, ?_, ?_⟩
  · rw [hdx]
    simp only [selectedAnalysis, freshAnalysis, mismatch_smoothDerivative]
  · simpa [freshAnalysis] using hlen

/-- C7, as stated, fails: with two elapsed times and three pressures,
`SRTFunction` followed by `calculateDerivatives` does not fail but returns a
state with complete `dx` and `xdx`; and with no elapsed time and one pressure it
succeeds whatever `smoothDerivative` does. -/
theorem shape_mismatch_counterexample :
    (freshAnalysis 15 [0, 1] [50, 50, 50] : BCAnalysis ℝ).dfitanalysis.tD.length
        ≠ (freshAnalysis 15 [0, 1] [50, 50, 50] : BCAnalysis ℝ).dfitanalysis.p_shut.length ∧
      (∃ r : BCAnalysis ℝ,
        (SRTFunction Real.sqrt (freshAnalysis 15 [0, 1] [50, 50, 50])).bind
            (calculateDerivatives FSHelper.smoothDerivative) = some r ∧
          r.x = [0, 1] ∧ r.dx = [0, 0] ∧ r.xdx = [0, 0]) ∧
      (∀ sd : List ℝ → List ℝ → Int → List ℝ → List ℝ,
        ((SRTFunction Real.sqrt (freshAnalysis 15 [] [50])).bind
            (calculateDerivatives sd)).isSome) := by
  refine ⟨by simp [freshAnalysis], ?_, ?_⟩
  · rw [SRTFunction_eq, Option.some_bind,
      calculateDerivatives_eq_some _ _ (by simp [freshAnalysis])
        (by simp [smoothDerivative_length, freshAnalysis])]
    refine ⟨_, rfl, ?_, ?_, ?_⟩
    · simp [freshAnalysis]
    · simp [freshAnalysis, mismatch_smoothDerivative]
    · simp [freshAnalysis, mismatch_smoothDerivative]
  · intro sd
    rw [SRTFunction_eq, Option.some_bind,
      calculateDerivatives_eq_some _ _ (by simp [freshAnalysis]) (by simp [freshAnalysis])]
    rfl

/-- C8 (amended): neither transform validates its domain.  For every record,
negative elapsed times included, `SRTFunction` and `GFunction` succeed and
produce an `x` series of length `N` whose entry `i` is the mode's expression
evaluated at `tD[i]`. -/
theorem transforms_never_fail {α : Type} [Field α] (sqrt : α → α) (pi : α)
    (pow : α → α → α) (s : BCAnalysis α) :
    (∃ s', SRTFunction sqrt s = some s' ∧ s'.x.length = s.dfitanalysis.tD.length ∧
      s'.x = s.dfitanalysis.tD.map sqrt) ∧
    (∃ s', GFunction pi pow s = some s' ∧ s'.x.length = s.dfitanalysis.tD.length ∧
      s'.x = s.dfitanalysis.tD.map (gValue pi pow)) :=
  ⟨⟨_, SRTFunction_eq sqrt s, by simp, rfl⟩, ⟨_, GFunction_eq pi pow s, by simp, rfl⟩⟩

/-- C8, as stated, fails: on the record `tD = [-1]` both transforms succeed and
produce an `x` series of length 1. -/
theorem negative_time_counterexample :
    (∃ t ∈ (freshAnalysis 15 [-1] [100] : BCAnalysis ℝ).dfitanalysis.tD, t < 0) ∧
      (∃ s' : BCAnalysis ℝ, SRTFunction Real.sqrt (freshAnalysis 15 [-1] [100]) = some s' ∧
        s'.x = [Real.sqrt (-1)]) ∧
      (∃ s' : BCAnalysis ℝ,
        GFunction Real.pi (fun a b => a ^ b) (freshAnalysis 15 [-1] [100]) = some s' ∧
        s'.x.length = 1) := by
  refine ⟨⟨-1, by simp [freshAnalysis], by norm_num⟩, ⟨_, SRTFunction_eq _ _, ?_⟩,
    ⟨_, GFunction_eq _ _ _, ?_⟩⟩
  · simp [freshAnalysis]
  · simp [freshAnalysis]

/-- C9 (amended): selecting a mode replaces `x` by the new mode's transform of
`tD` and leaves `dx` and `xdx` exactly as they were; the earlier `dx` and `xdx`
are discarded by the next `calculateDerivatives`, whose result does not depend
on them. -/
theorem mode_selection_keeps_derivatives {α : Type} [Field α] (sqrt : α → α) (pi : α)
    (pow : α → α → α) (s : BCAnalysis α) :
    (∃ s', SRTFunction sqrt s = some s' ∧ s'.x = s.dfitanalysis.tD.map sqrt ∧
      s'.dx = s.dx ∧ s'.xdx = s.xdx) ∧
    (∃ s', GFunction pi pow s = some s' ∧ s'.x = s.dfitanalysis.tD.map (gValue pi pow) ∧
      s'.dx = s.dx ∧ s'.xdx = s.xdx) ∧
    (∀ (sd : List α → List α → Int → List α → List α) (dx0 xdx0 : List α),
      calculateDerivatives sd { s with dx := dx0, xdx := xdx0 }
        = calculateDerivatives sd s) := by
  refine ⟨⟨_, SRTFunction_eq sqrt s, rfl, rfl, rfl⟩, ⟨_, GFunction_eq pi pow s, rfl, rfl, rfl⟩,
    ?_⟩
  intro sd dx0 xdx0
  simp only [calculateDerivatives]

/-- C9, as stated, fails: after a square-root-time analysis of the record
`tD = [0, 1]`, `p_shut = [10, 7]`, selecting the G-function mode leaves the
square-root-time `dx = [-3, -3]` and `xdx = [0, -3]` in place next to the new
`x`. -/
theorem mode_switch_counterexample :
    ∃ s1 s2 : BCAnalysis ℝ,
      (SRTFunction Real.sqrt (freshAnalysis 15 [0, 1] [10, 7])).bind
          (calculateDerivatives FSHelper.smoothDerivative) = some s1 ∧
        s1.x = [0, 1] ∧ s1.dx = [-3, -3] ∧ s1.xdx = [0, -3] ∧
        GFunction Real.pi (fun a b => a ^ b) s1 = some s2 ∧
        s2.x = [gValue Real.pi (fun a b => a ^ b) 0, gValue Real.pi (fun a b => a ^ b) 1] ∧
        s2.dx = [-3, -3] ∧ s2.xdx = [0, -3] := by
  have h1 : (SRTFunction Real.sqrt (freshAnalysis 15 [0, 1] [10, 7])).bind
      (calculateDerivatives FSHelper.smoothDerivative)
      = some { (selectedAnalysis srtTitles 15 [0, 1] [10, 7] [0, 1] : BCAnalysis ℝ) with
          dx := [-3, -3], xdx := [0, -3] } := by
    rw [SRTFunction_eq, Option.some_bind,
      calculateDerivatives_eq_some _ _ (by simp [freshAnalysis])
        (by simp [smoothDerivative_length, freshAnalysis])]
    simp [freshAnalysis, selectedAnalysis, twoPoint_smoothDerivative]
  refine ⟨_, _, h1, ?_, rfl, rfl, GFunction_eq _ _ _, ?_, rfl, rfl⟩
  · simp [selectedAnalysis]
  · simp [selectedAnalysis]

end DFIT
